import Mathlib

/-!
Shallow embedding of the telegram2notion update-processing pipeline.

Each definition below is translated from the repository's Python source:
  * `src/app/state_manager.py`   — the idempotency ledger (JSON file of ids)
  * `src/app/processing/workflow_processor.py` — the run orchestrator,
    extraction fan-out, admission gate and action executor
  * `src/app/webhook_api.py`     — the webhook dedup cache

Update identifiers and ledger entries are Python ints, modelled as `ℤ`.
External collaborators (Telegram, Gladia, Notion, the LLM) are modelled as
oracles supplied in an environment record; a call that may raise is an
`Except`-valued oracle.
-/

set_option maxHeartbeats 1000000

namespace TgToNotion

/-! ## Idempotency ledger (`src/app/state_manager.py`)

The backing store is a JSON file holding an array of integers.  A JSON
int-array round-trips losslessly through `json.dump`/`json.load`, so the
file contents are modelled as the list of integers it encodes; the states a
read can encounter (lines 39-57) are the file being absent, holding invalid
JSON, being unreadable for permission reasons, or holding a valid array. -/

/-- The observable states of the ledger file on disk. -/
inductive LedgerFile
  | missing
  | invalidJson
  | permissionDenied
  | stored (entries : List ℤ)
deriving DecidableEq, Repr

/-- Log level attached to a state-manager log call. -/
inductive LogLevel
  | warningLog
  | errorLog
  | criticalLog
deriving DecidableEq, Repr

/-- `sorted(list(processed_ids))` — the exact payload `json.dump` writes
(state_manager.py line 71). -/
def serializeLedger (ids : Finset ℤ) : List ℤ :=
  ids.sort (· ≤ ·)

/-- `get_processed_update_ids` (state_manager.py lines 31-57): returns the
set parsed from the file, plus the log level it emits on the exceptional
paths.  `FileNotFoundError` and `json.JSONDecodeError` log a warning and
yield the empty set; `PermissionError` logs an error and yields the empty
set; none of the paths raise. -/
def get_processed_update_ids : LedgerFile → Finset ℤ × Option LogLevel
  | .missing => (∅, some .warningLog)
  | .invalidJson => (∅, some .warningLog)
  | .permissionDenied => (∅, some .errorLog)
  | .stored entries => (entries.toFinset, none)

/-- Outcome of the file-system write attempted by `save_processed_update_ids`. -/
inductive WriteOutcome
  | ok
  | permissionMissing
  | osFailure
deriving DecidableEq, Repr

/-- `save_processed_update_ids` (state_manager.py lines 59-83): on success
the file now stores the sorted full id list; a `PermissionError` or any
other `OSError` is logged critical and re-raised (modelled as `.error`). -/
def save_processed_update_ids (outcome : WriteOutcome) (ids : Finset ℤ) :
    Except String LedgerFile :=
  match outcome with
  | .ok => .ok (.stored (serializeLedger ids))
  | .permissionMissing => .error "PermissionError"
  | .osFailure => .error "OSError"

/-- The ledger file produced by a successful save. -/
def savedLedgerFile (ids : Finset ℤ) : LedgerFile :=
  .stored (serializeLedger ids)

/-! ### File-operation trace of the write path

`save_processed_update_ids` writes with
`state_path.open('w')` + `json.dump` (lines 70-71): the target file is
opened in truncating write mode and the serialized set is then written into
it in place. -/

/-- Primitive file-system operations relevant to how the state file is
written. -/
inductive FileOp
  | openTruncate (path : String)
  | writeAll (path : String) (content : List ℤ)
  | closeFile (path : String)
  | writeTemp (path : String) (content : List ℤ)
  | renameFile (src dst : String)
deriving DecidableEq, Repr

/-- The file-operation sequence performed by the happy path of
`save_processed_update_ids` (state_manager.py lines 70-71):
`open(state_path, 'w')` truncates the target, then the whole serialized
set is written, then the handle is closed. -/
def saveLedgerTrace (path : String) (ids : Finset ℤ) : List FileOp :=
  [.openTruncate path, .writeAll path (serializeLedger ids), .closeFile path]

/-- Modelled from the spec's words (refinement side, not from the source):
"a durable replace-the-file (or equivalent atomic) strategy, not an
in-place partial write" — the target is never opened for truncation or
written directly; it only ever changes by being the destination of a
rename of a fully written temporary file. -/
def specAtomicReplaceStrategy (target : String) (ops : List FileOp) : Bool :=
  ops.all (fun op =>
    match op with
    | .openTruncate p => p ≠ target
    | .writeAll p _ => p ≠ target
    | _ => true) &&
  ops.any (fun op =>
    match op with
    | .renameFile _ dst => dst = target
    | _ => false)

/-! ## Telegram updates and the run orchestrator
(`src/app/processing/workflow_processor.py`) -/

/-- A Telegram voice attachment: only its `file_id` is consulted. -/
structure VoiceNote where
  file_id : String
deriving DecidableEq, Repr

/-- The parts of a Telegram message consulted by `_process_single_update`:
`message.text` and `message.voice`.  Python truthiness applies: `None` and
the empty string are both falsy for `text`. -/
structure TgMessage where
  text : Option String := none
  voice : Option VoiceNote := none
deriving DecidableEq, Repr

/-- A Telegram update: `update_id` plus an optional `message`. -/
structure TgUpdate where
  update_id : ℤ
  message : Option TgMessage := none
deriving DecidableEq, Repr

/-- Python truthiness of an optional string (`if message.text:` /
`if text:`): present and non-empty. -/
def strTruthy : Option String → Bool
  | none => false
  | some s => !s.isEmpty

/-- Events the run orchestrator logs, as far as the claims observe them. -/
inductive LogEvent
  | warnNoActions
  | critUnhandled
deriving DecidableEq, Repr

/-- Environment of collaborator oracles for one workflow run.  Every
`await`ed collaborator call in `WorkflowProcessor.run` is an oracle here;
a call that may raise is `Except`-valued (`.error` = the call threw). -/
structure RunEnv where
  /-- Ledger file state at run start (read by `get_processed_update_ids`). -/
  file : LedgerFile
  /-- `telegram.get_updates(offset)`. -/
  getUpdates : ℤ → List TgUpdate
  /-- `telegram.download_voice_file(file_id)`: raw audio or an exception. -/
  download : String → Except Unit String
  /-- `gladia.transcribe_audio(audio)`: `Optional[str]` or an exception. -/
  transcribe : String → Except Unit (Option String)
  /-- `notion.get_database_schema()`. -/
  schema : Except Unit String
  /-- `_build_rag_index()` (Notion page query + index build). -/
  ragIndex : Except Unit Unit
  /-- `_get_rag_context(thoughts)` as one awaited stage. -/
  ragContext : Except Unit String
  /-- `llm.process_thoughts(...)`: the decision stage's mutation intents.
  Intents are left abstract here; only emptiness matters to the run. -/
  llm : Except Unit (List Unit)

/-- `_process_single_update` (workflow_processor.py lines 208-233) without
the waiting performed by the admission gate and the semaphore, which only
delay the call and do not change its value.  Returns
`(update_id, extracted text or None)`. -/
def processSingleUpdate (env : RunEnv) (u : TgUpdate) : ℤ × Option String :=
  match u.message with
  | none => (u.update_id, none)
  | some m =>
    if strTruthy m.text then (u.update_id, m.text)
    else
      match m.voice with
      | some v =>
        match env.download v.file_id with
        | .error _ => (u.update_id, none)
        | .ok audio =>
          match env.transcribe audio with
          | .error _ => (u.update_id, none)
          | .ok t => (u.update_id, t)
      | none => (u.update_id, none)

/-- Result of `_extract_content_from_updates`: the parallel lists
`thoughts`/`successful_ids` plus the `content_extraction_failed` counter. -/
structure ExtractOut where
  thoughts : List String
  successful_ids : List ℤ
  failed : ℕ
deriving DecidableEq, Repr

/-- The accumulation loop of `_extract_content_from_updates`
(lines 152-158): a truthy text joins `thoughts` and `successful_ids`,
anything else bumps the failure counter. -/
def collectExtracted : List (ℤ × Option String) → ExtractOut
  | [] => ⟨[], [], 0⟩
  | (uid, text) :: rest =>
    let r := collectExtracted rest
    if strTruthy text then
      ⟨(text.getD "") :: r.thoughts, uid :: r.successful_ids, r.failed⟩
    else
      ⟨r.thoughts, r.successful_ids, r.failed + 1⟩

/-- `_extract_content_from_updates` (lines 148-160): gather the per-update
extractions (pure fan-out — each update's result depends on that update
alone) and fold them into the output lists. -/
def extractContent (env : RunEnv) (updates : List TgUpdate) : ExtractOut :=
  collectExtracted (updates.map (processSingleUpdate env))

/-- `last_known_id = max(processed_ids) if processed_ids else 0`
(line 133). -/
def lastKnownId (processed : Finset ℤ) : ℤ :=
  processed.max.unbot' 0

/-- `_fetch_and_filter_updates` (lines 131-146).  Returns the unprocessed
updates plus the ledger set written by the everything-already-processed
branch (line 145), if any. -/
def fetchAndFilter (env : RunEnv) (processed : Finset ℤ) :
    List TgUpdate × Option (Finset ℤ) :=
  let updates := env.getUpdates (lastKnownId processed + 1)
  if updates.isEmpty then ([], none)
  else
    let unprocessed := updates.filter (fun u => u.update_id ∉ processed)
    if unprocessed.isEmpty then
      ([], some (processed ∪ (updates.map (·.update_id)).toFinset))
    else (unprocessed, none)

/-- `_persist_successful_updates` (lines 162-173): nothing happens for an
empty `successful_ids`; otherwise the union is saved.  Returns the new
file state and the list of ledger sets written. -/
def persistSuccessful (file : LedgerFile) (processed : Finset ℤ)
    (successful : List ℤ) : LedgerFile × List (Finset ℤ) :=
  if successful.isEmpty then (file, [])
  else
    let s := processed ∪ successful.toFinset
    (savedLedgerFile s, [s])

/-- Observable outcome of one `WorkflowProcessor.run` invocation. -/
structure RunResult where
  /-- Ledger file state after the run. -/
  file : LedgerFile
  /-- Ledger sets saved during the run, in order. -/
  writes : List (Finset ℤ)
  /-- The boolean `run` returns (`processed_updates`). -/
  ret : Bool
  /-- Orchestrator-level log events emitted. -/
  logs : List LogEvent
deriving DecidableEq

/-- `WorkflowProcessor.run` (lines 55-88), with each `await`ed collaborator
call replaced by its oracle.  An `.error` oracle outcome models the call
raising; control then transfers to the `except` block (lines 84-85), which
only logs critical — it performs no ledger write.  Ledger saves are
modelled as always succeeding here (their own failure modes are the
subject of the state-manager model). -/
def runWorkflow (env : RunEnv) : RunResult :=
  let processed := (get_processed_update_ids env.file).1
  let fetched := fetchAndFilter env processed
  let fileAfterFetch :=
    match fetched.2 with
    | some s => savedLedgerFile s
    | none => env.file
  let writes0 := fetched.2.toList
  if fetched.1.isEmpty then ⟨fileAfterFetch, writes0, false, []⟩
  else
    let ex := extractContent env fetched.1
    if ex.thoughts.isEmpty then
      let p := persistSuccessful fileAfterFetch processed ex.successful_ids
      ⟨p.1, writes0 ++ p.2, true, []⟩
    else
      match env.schema with
      | .error _ => ⟨fileAfterFetch, writes0, true, [.critUnhandled]⟩
      | .ok _ =>
        match env.ragIndex with
        | .error _ => ⟨fileAfterFetch, writes0, true, [.critUnhandled]⟩
        | .ok _ =>
          match env.ragContext with
          | .error _ => ⟨fileAfterFetch, writes0, true, [.critUnhandled]⟩
          | .ok _ =>
            match env.llm with
            | .error _ => ⟨fileAfterFetch, writes0, true, [.critUnhandled]⟩
            | .ok actions =>
              let logs :=
                if actions.isEmpty then [LogEvent.warnNoActions] else []
              let p := persistSuccessful fileAfterFetch processed ex.successful_ids
              ⟨p.1, writes0 ++ p.2, true, logs⟩

/-! ## Action executor (`_execute_notion_actions`, lines 269-307)

An LLM action is a dict consulted through `.get("action")`,
`.get("page_id")` and `.get("data")`; Python truthiness applies to
`page_id` (a string) and `data` (a dict, modelled as an association
list). -/

/-- One action dictionary as consulted by the executor. -/
structure NotionActionDict where
  action : Option String := none
  page_id : Option String := none
  data : Option (List (String × String)) := none
deriving DecidableEq, Repr

/-- Python truthiness of the optional `data` dict: present and non-empty. -/
def dataTruthy : Option (List (String × String)) → Bool
  | none => false
  | some d => !d.isEmpty

/-- A call submitted to the Notion service. -/
inductive NotionCall
  | createPage (data : List (String × String))
  | updatePage (page_id : String) (data : List (String × String))
  | archivePage (page_id : String)
deriving DecidableEq, Repr

/-- `[a for a in actions if a.get("action") == "create"]` (line 273). -/
def createActions (actions : List NotionActionDict) : List NotionActionDict :=
  actions.filter (fun a => a.action = some "create")

/-- `[a for a in actions if a.get("action") == "update"]` (line 274). -/
def updateActions (actions : List NotionActionDict) : List NotionActionDict :=
  actions.filter (fun a => a.action = some "update")

/-- `[a for a in actions if a.get("action") == "archive"]` (line 275). -/
def archiveActions (actions : List NotionActionDict) : List NotionActionDict :=
  actions.filter (fun a => a.action = some "archive")

/-- `ordered_actions = create_actions + update_actions + archive_actions`
(line 278). -/
def orderedActions (actions : List NotionActionDict) : List NotionActionDict :=
  createActions actions ++ updateActions actions ++ archiveActions actions

/-- The per-action dispatch of the loop body (lines 280-291): the Notion
call appended to `tasks`, or `none` when the action falls through to the
warning branch. -/
def taskOf (a : NotionActionDict) : Option NotionCall :=
  if a.action = some "create" then
    match a.data with
    | some d => if d.isEmpty then none else some (.createPage d)
    | none => none
  else if a.action = some "update" then
    match a.page_id, a.data with
    | some p, some d =>
      if p.isEmpty || d.isEmpty then none else some (.updatePage p d)
    | _, _ => none
  else if a.action = some "archive" then
    match a.page_id with
    | some p => if p.isEmpty then none else some (.archivePage p)
    | none => none
  else none

/-- The loop over `ordered_actions` (lines 280-291), accumulating the
submitted tasks in order and, separately, the actions that hit the
`else: logger.warning(...)` branch. -/
def buildTasks : List NotionActionDict → List NotionCall × List NotionActionDict
  | [] => ([], [])
  | a :: rest =>
    let r := buildTasks rest
    match taskOf a with
    | some t => (t :: r.1, r.2)
    | none => (r.1, a :: r.2)

/-- Observable outcome of `_execute_notion_actions`. -/
structure ExecResult where
  /-- Tasks submitted to `asyncio.gather`, in submission order. -/
  submitted : List NotionCall
  /-- Actions dropped through the explicit warning branch (line 291). -/
  warned : List NotionActionDict
  /-- Final value of `summary["notion_actions_executed"]`. -/
  reported : ℕ
deriving DecidableEq, Repr

/-- `_execute_notion_actions` (lines 269-307).  `failsAt i` tells whether
the `i`-th submitted task's result in `asyncio.gather(...,
return_exceptions=True)` is an exception; failures are counted (lines
298-305) and, when non-zero, the executed count is lowered to
`max(executed_count - failures, 0)` (line 307).  No failure aborts the
gather. -/
def execute_notion_actions (actions : List NotionActionDict)
    (failsAt : ℕ → Bool) : ExecResult :=
  let built := buildTasks (orderedActions actions)
  let executedCount := built.1.length
  let failures := ((List.range executedCount).filter failsAt).length
  let reported :=
    if failures = 0 then executedCount else max (executedCount - failures) 0
  ⟨built.1, built.2, reported⟩

/-- The validity predicate as the claim states it: create needs a data
payload, update needs a page id and a data payload, archive needs a page
id (stated over the claim's wording, for comparing with `taskOf`). -/
def claimValidIntent (a : NotionActionDict) : Bool :=
  if a.action = some "create" then dataTruthy a.data
  else if a.action = some "update" then
    strTruthy a.page_id && dataTruthy a.data
  else if a.action = some "archive" then strTruthy a.page_id
  else false

/-! ## Admission gate (`_acquire_gladia_transcription_slot`, lines 175-206)

Timestamps are seconds as integers; the deque of grant timestamps is a
list with its head at the deque's front. -/

/-- The prune loop (lines 189-190): pop from the front while the front
timestamp is older than `now - window`. -/
def pruneTimestamps (window now : ℤ) (ts : List ℤ) : List ℤ :=
  ts.dropWhile (fun t => t < now - window)

/-- One body of the `while True` loop, executed under the rate lock
(lines 186-199): prune, then either grant (append `now`) or compute the
wait duration.  Returns `none` for the impossible `deque[0]` on an empty
deque (unreachable whenever `1 ≤ maxRequests`, since a blocked check has
at least `maxRequests` pruned timestamps).  The granted case yields
`(new deque, none)`; the blocked case `(pruned deque, some wait)` where
`wait` already includes the `max(wait_duration, 0.0)` of line 200. -/
def gateCheck (maxRequests window cooldown now : ℤ) (ts : List ℤ) :
    Option (List ℤ × Option ℤ) :=
  let pruned := pruneTimestamps window now ts
  if (pruned.length : ℤ) < maxRequests then some (pruned ++ [now], none)
  else
    match pruned with
    | [] => none
    | oldest :: _ =>
      some (pruned, some (max (max (oldest + window - now) cooldown) 0))

/-- The retry loop: `nows` is the sequence of `datetime.now()` readings of
successive iterations (the real loop runs until granted; the model stops
when `nows` is exhausted, returning `none`).  A blocked iteration keeps
the pruned deque, sleeps, and re-runs the full check. -/
def gateLoop (maxRequests window cooldown : ℤ) :
    List ℤ → List ℤ → Option (List ℤ)
  | [], _ => none
  | now :: rest, ts =>
    match gateCheck maxRequests window cooldown now ts with
    | none => none
    | some (ts', none) => some ts'
    | some (ts', some _) => gateLoop maxRequests window cooldown rest ts'

/-- `_acquire_gladia_transcription_slot` (lines 175-206): when the
configured maximum is ≤ 0 the function returns at once without touching
the deque (lines 179-181); otherwise it runs the check-sleep loop. -/
def acquireGladiaSlot (maxRequests window cooldown : ℤ) (nows : List ℤ)
    (ts : List ℤ) : Option (List ℤ) :=
  if maxRequests ≤ 0 then some ts
  else gateLoop maxRequests window cooldown nows ts

/-- Ordered abstract events of the voice branch of
`_process_single_update` (lines 218-231). -/
inductive GateEvent
  | gateRecord
  | semAcquire
  | downloadCall
  | transcribeCall
  | semRelease
deriving DecidableEq, Repr

/-- Event order of the voice branch (lines 219-231): the admission gate
runs first — recording a timestamp exactly when the volume gate is
enabled, i.e. `maxRequests > 0` (cf. `acquireGladiaSlot`) — and the
semaphore is then acquired unconditionally around the download and
transcription calls, released when the `async with` block exits. -/
def voicePathTrace (maxRequests : ℤ) : List GateEvent :=
  (if maxRequests ≤ 0 then [] else [GateEvent.gateRecord]) ++
    [GateEvent.semAcquire, GateEvent.downloadCall, GateEvent.transcribeCall,
      GateEvent.semRelease]

/-! ## Webhook dedup cache (`_mark_update_if_new`,
`src/app/webhook_api.py` lines 190-207)

The cache is a deque of update ids (head = oldest) mirrored by a set for
membership tests; the whole operation runs under `_webhook_cache_lock`,
so it is modelled as one atomic transition. -/

/-- `_webhook_update_cache` (a deque, head = oldest) together with
`_webhook_update_cache_set`. -/
structure DedupCache where
  deque : List ℤ
  cset : Finset ℤ
deriving DecidableEq

/-- The caches start empty (webhook_api.py lines 28-29). -/
def emptyDedupCache : DedupCache := ⟨[], ∅⟩

/-- `_mark_update_if_new` (lines 190-207) with capacity
`WEBHOOK_UPDATE_CACHE_SIZE = cap`: a known id returns `False` with the
cache untouched; otherwise, if the deque has reached capacity the single
oldest entry is popped and discarded from the set, then the id is
appended and added and `True` is returned.  `none` models the
`IndexError` of `popleft()` on an empty deque, which needs `cap = 0`
(the configuration validator requires `cap > 0`). -/
def mark_update_if_new (cap : ℕ) (c : DedupCache) (id : ℤ) :
    Option (DedupCache × Bool) :=
  if id ∈ c.cset then some (c, false)
  else if cap ≤ c.deque.length then
    match c.deque with
    | [] => none
    | oldest :: rest =>
      some (⟨rest ++ [id], insert id (c.cset.erase oldest)⟩, true)
  else some (⟨c.deque ++ [id], insert id c.cset⟩, true)

/-- Marking a list of ids one after the other (left to right). -/
def markAll (cap : ℕ) : DedupCache → List ℤ → Option DedupCache
  | c, [] => some c
  | c, id :: rest =>
    match mark_update_if_new cap c id with
    | none => none
    | some (c', _) => markAll cap c' rest

/-- Well-formedness tying the two mirrors together, plus the capacity
invariant: the set is exactly the deque's contents, the deque has no
duplicates, and it never exceeds the capacity. -/
def CacheWF (cap : ℕ) (c : DedupCache) : Prop :=
  c.cset = c.deque.toFinset ∧ c.deque.Nodup ∧ c.deque.length ≤ cap

/-! ## Shared helper lemmas -/

/-- Reading back a successfully saved ledger recovers exactly the saved set. -/
lemma load_savedLedgerFile (s : Finset ℤ) :
    (get_processed_update_ids (savedLedgerFile s)).1 = s := by
  simp [get_processed_update_ids, savedLedgerFile, serializeLedger,
    Finset.sort_toFinset]

/-- `dropWhile` never lengthens a list. -/
lemma length_dropWhile_le (p : ℤ → Bool) (l : List ℤ) :
    (l.dropWhile p).length ≤ l.length := by
  induction l with
  | nil => simp
  | cons a l ih =>
    by_cases h : p a
    · simp only [List.dropWhile, h, List.length_cons]
      omega
    · simp [List.dropWhile, h]

/-! ## C9 — ledger round-trip -/

/-- **C9.** For every set `s` of integer update identifiers, saving then
loading returns a set equal to `s`, independent of element insertion
order (`persist(load())` is a no-op on content); a missing state file or
one containing invalid JSON loads as the empty set instead of raising. -/
theorem c9_ledger_roundtrip :
    (∀ s : Finset ℤ,
      save_processed_update_ids .ok s = .ok (savedLedgerFile s) ∧
      (get_processed_update_ids (savedLedgerFile s)).1 = s) ∧
    (∀ l₁ l₂ : List ℤ, l₁.Perm l₂ →
      savedLedgerFile l₁.toFinset = savedLedgerFile l₂.toFinset ∧
      (get_processed_update_ids (savedLedgerFile l₁.toFinset)).1 = l₁.toFinset) ∧
    (∀ f : LedgerFile,
      (get_processed_update_ids
        (savedLedgerFile (get_processed_update_ids f).1)).1 =
        (get_processed_update_ids f).1) ∧
    (get_processed_update_ids .missing).1 = ∅ ∧
    (get_processed_update_ids .invalidJson).1 = ∅ := by
  refine ⟨fun s => ⟨rfl, load_savedLedgerFile s⟩, fun l₁ l₂ h => ?_,
    fun f => load_savedLedgerFile _, rfl, rfl⟩
  have he : l₁.toFinset = l₂.toFinset := List.toFinset_eq_of_perm _ _ h
  exact ⟨by rw [he], load_savedLedgerFile _⟩

/-- Witness for C9 at a concrete input: the lists `[3, 1]` and `[1, 3]`
persist identically and load back as the set `{1, 3}`. -/
theorem c9_ledger_roundtrip_witness :
    savedLedgerFile ([3, 1] : List ℤ).toFinset =
      savedLedgerFile ([1, 3] : List ℤ).toFinset ∧
    (get_processed_update_ids
      (savedLedgerFile ([3, 1] : List ℤ).toFinset)).1 =
      ([3, 1] : List ℤ).toFinset :=
  c9_ledger_roundtrip.2.1 [3, 1] [1, 3] (by decide)

/-! ## C10 — unreadable ledger fails open on read, fatal on write -/

/-- **C10.** A `PermissionError` while reading the state file is logged as
an error and yields the empty set — the same set as a missing file —
whereas a `PermissionError` while saving is re-raised. -/
theorem c10_permission_asymmetry :
    get_processed_update_ids .permissionDenied = (∅, some .errorLog) ∧
    (get_processed_update_ids .permissionDenied).1 =
      (get_processed_update_ids .missing).1 ∧
    (∀ ids : Finset ℤ,
      save_processed_update_ids .permissionMissing ids =
        .error "PermissionError") :=
  ⟨rfl, rfl, fun _ => rfl⟩

/-! ## C3 — the save path is an in-place rewrite, not an atomic replace

The claim asserts a durable replace-the-file (or equivalent atomic)
strategy.  `save_processed_update_ids` instead performs
`state_path.open('w')` followed by `json.dump` (state_manager.py lines
70-71): the target file itself is opened in truncating write mode and
rewritten in place, so the claimed strategy is refuted; the
failure-raises half of the claim does hold. -/

/-- **C3 counterexample.** On the concrete set `{1, 2}` the write trace
opens the target itself for truncation and contains no rename, so it is
not a replace-the-file strategy. -/
theorem c3_not_atomic_replace_cex :
    specAtomicReplaceStrategy "state.json"
      (saveLedgerTrace "state.json" ({1, 2} : Finset ℤ)) = false ∧
    (saveLedgerTrace "state.json" ({1, 2} : Finset ℤ)).head? =
      some (.openTruncate "state.json") := by
  constructor
  · simp [specAtomicReplaceStrategy, saveLedgerTrace]
  · rfl

/-- **C3 (amended).** `save_processed_update_ids(ids)` writes the full
identifier set by opening the target file in truncating write mode and
rewriting it in place — not by an atomic replace-the-file strategy — and
a failure to write raises, making the failure fatal for the run. -/
theorem c3_save_write_behaviour :
    (∀ (path : String) (ids : Finset ℤ),
      saveLedgerTrace path ids =
        [.openTruncate path, .writeAll path (serializeLedger ids),
          .closeFile path] ∧
      (serializeLedger ids).toFinset = ids ∧
      specAtomicReplaceStrategy path (saveLedgerTrace path ids) = false) ∧
    (∀ ids : Finset ℤ,
      save_processed_update_ids .permissionMissing ids =
        .error "PermissionError" ∧
      save_processed_update_ids .osFailure ids = .error "OSError" ∧
      save_processed_update_ids .ok ids =
        .ok (.stored (serializeLedger ids))) := by
  refine ⟨fun path ids => ⟨rfl, ?_, ?_⟩, fun ids => ⟨rfl, rfl, rfl⟩⟩
  · exact Finset.sort_toFinset _ _
  · simp [specAtomicReplaceStrategy, saveLedgerTrace]

/-! ## Extraction fan-out helper lemmas -/

/-- `_process_single_update` always reports the update's own identifier. -/
lemma processSingleUpdate_fst (env : RunEnv) (u : TgUpdate) :
    (processSingleUpdate env u).1 = u.update_id := by
  rcases u with ⟨uid, _ | ⟨mt, _ | v⟩⟩
  · rfl
  · by_cases h : strTruthy mt <;> simp [processSingleUpdate, h]
  · by_cases h : strTruthy mt
    · simp [processSingleUpdate, h]
    · rcases hd : env.download v.file_id with _ | audio
      · simp [processSingleUpdate, h, hd]
      · rcases ht : env.transcribe audio with _ | t <;>
          simp [processSingleUpdate, h, hd, ht]

/-- Counting facts about the extraction accumulation loop. -/
lemma collectExtracted_counts (rs : List (ℤ × Option String)) :
    (collectExtracted rs).thoughts.length =
      (collectExtracted rs).successful_ids.length ∧
    (collectExtracted rs).thoughts.length =
      rs.countP (fun p => strTruthy p.2) ∧
    (collectExtracted rs).thoughts.length + (collectExtracted rs).failed =
      rs.length := by
  induction rs with
  | nil => simp [collectExtracted]
  | cons p rs ih =>
    by_cases h : strTruthy p.2 <;>
      simp [collectExtracted, h, List.countP_cons, ih.1, ih.2.1] <;>
      omega

/-- The successful ids are exactly the first components of the truthy
extraction results, in order. -/
lemma collectExtracted_ids (rs : List (ℤ × Option String)) :
    (collectExtracted rs).successful_ids =
      (rs.filter (fun p => strTruthy p.2)).map Prod.fst := by
  induction rs with
  | nil => rfl
  | cons p rs ih =>
    by_cases h : strTruthy p.2 <;> simp [collectExtracted, h, ih]

/-- Thoughts and successful ids are appended in lockstep, so one is empty
exactly when the other is. -/
lemma extract_ids_ne_nil (env : RunEnv) (us : List TgUpdate)
    (h : (extractContent env us).thoughts ≠ []) :
    (extractContent env us).successful_ids ≠ [] := by
  intro hids
  apply h
  have hlen := (collectExtracted_counts (us.map (processSingleUpdate env))).1
  rw [extractContent] at hids ⊢
  rw [hids] at hlen
  exact List.eq_nil_of_length_eq_zero hlen

/-- When `_fetch_and_filter_updates` returns a non-empty unprocessed list,
it performed no ledger write. -/
lemma fetchAndFilter_snd_of_ne_nil (env : RunEnv) (processed : Finset ℤ)
    (h : (fetchAndFilter env processed).1 ≠ []) :
    (fetchAndFilter env processed).2 = none := by
  unfold fetchAndFilter at *
  by_cases h1 : (env.getUpdates (lastKnownId processed + 1)).isEmpty
  · rw [if_pos h1]
  · rw [if_neg h1] at h ⊢
    by_cases h2 : ((env.getUpdates (lastKnownId processed + 1)).filter
        (fun u => u.update_id ∉ processed)).isEmpty
    · rw [if_pos h2] at h
      exact absurd rfl h
    · rw [if_neg h2]

/-- The fully successful tail of `run` (lines 75-83): after non-empty
extraction, with schema fetch, RAG assembly and the LLM call all
returning, the run persists `processed ∪ successful_ids`, returns `true`,
and warns exactly when the LLM returned no actions. -/
lemma runWorkflow_happy (env : RunEnv) (unp : List TgUpdate)
    (sc ctx : String) (acts : List Unit)
    (hfetch : fetchAndFilter env (get_processed_update_ids env.file).1 =
      (unp, none))
    (hunp : unp ≠ [])
    (hth : (extractContent env unp).thoughts ≠ [])
    (hs : env.schema = .ok sc) (hri : env.ragIndex = .ok ())
    (hrc : env.ragContext = .ok ctx) (hl : env.llm = .ok acts) :
    runWorkflow env =
      ⟨savedLedgerFile ((get_processed_update_ids env.file).1 ∪
          (extractContent env unp).successful_ids.toFinset),
        [(get_processed_update_ids env.file).1 ∪
          (extractContent env unp).successful_ids.toFinset],
        true,
        if acts.isEmpty then [.warnNoActions] else []⟩ := by
  have hids := extract_ids_ne_nil env unp hth
  simp only [runWorkflow, hfetch, hs, hri, hrc, hl]
  rw [if_neg (by simpa [List.isEmpty_iff] using hunp),
    if_neg (by simpa [List.isEmpty_iff] using hth)]
  simp [persistSuccessful, List.isEmpty_iff, hids, Option.toList]

/-! ## C5 — ledger filtering, fetch watermark, concrete pipeline run -/

/-- Updates `1`..`4` of the spec's concrete end-to-end example: `3` has no
message payload, `4` carries the text "buy milk". -/
def c5u1 : TgUpdate := ⟨1, some ⟨some "a", none⟩⟩

def c5u2 : TgUpdate := ⟨2, some ⟨some "b", none⟩⟩

def c5u3 : TgUpdate := ⟨3, none⟩

def c5u4 : TgUpdate := ⟨4, some ⟨some "buy milk", none⟩⟩

/-- Run environment of the concrete example: ledger `{1, 2}` on file, the
fetch returning updates `1`..`4`, all remaining collaborators succeeding. -/
def c5env : RunEnv where
  file := .stored [1, 2]
  getUpdates := fun o => if o = 3 then [c5u1, c5u2, c5u3, c5u4] else []
  download := fun _ => .error ()
  transcribe := fun _ => .error ()
  schema := .ok "schema"
  ragIndex := .ok ()
  ragContext := .ok "context"
  llm := .ok [()]

/-- **C5.** The filter step returns exactly the fetched updates whose
identifiers are not in the ledger; a non-empty ledger makes the fetch
start at `max(ledger) + 1`; and on the concrete example with ledger
`{1, 2}` and fetched updates `{1, 2, 3, 4}` (`3` payloadless, `4` "buy
milk"): unprocessed = `[3, 4]`, extraction yields only `(4, "buy milk")`,
the ledger after persist is `{1, 2, 4}`, and `3` stays unmarked. -/
theorem c5_filter_and_watermark :
    (∀ (env : RunEnv) (processed : Finset ℤ),
      (fetchAndFilter env processed).1 =
        (env.getUpdates (lastKnownId processed + 1)).filter
          (fun u => u.update_id ∉ processed)) ∧
    (∀ (processed : Finset ℤ) (h : processed.Nonempty),
      lastKnownId processed = processed.max' h) ∧
    ((get_processed_update_ids c5env.file).1 = ({1, 2} : Finset ℤ) ∧
      fetchAndFilter c5env ({1, 2} : Finset ℤ) = ([c5u3, c5u4], none) ∧
      extractContent c5env [c5u3, c5u4] = ⟨["buy milk"], [4], 1⟩ ∧
      (get_processed_update_ids (runWorkflow c5env).file).1 =
        ({1, 2, 4} : Finset ℤ) ∧
      (3 : ℤ) ∉ (get_processed_update_ids (runWorkflow c5env).file).1) := by
  refine ⟨fun env processed => ?_, fun processed h => ?_, ?_⟩
  · unfold fetchAndFilter
    by_cases h1 : (env.getUpdates (lastKnownId processed + 1)).isEmpty
    · rw [if_pos h1, List.isEmpty_iff.mp h1]
      rfl
    · rw [if_neg h1]
      by_cases h2 : ((env.getUpdates (lastKnownId processed + 1)).filter
          (fun u => u.update_id ∉ processed)).isEmpty
      · rw [if_pos h2]
        exact (List.isEmpty_iff.mp h2).symm
      · rw [if_neg h2]
  · unfold lastKnownId
    rw [← Finset.coe_max' h]
    rfl
  · have hload : (get_processed_update_ids c5env.file).1 = ({1, 2} : Finset ℤ) := by
      decide
    have hfetch : fetchAndFilter c5env (get_processed_update_ids c5env.file).1 =
        ([c5u3, c5u4], none) := by
      rw [hload]
      decide
    have hrun := runWorkflow_happy c5env [c5u3, c5u4] "schema" "context" [()]
      hfetch (by decide) (by decide) rfl rfl rfl rfl
    refine ⟨hload, by rw [hload] at hfetch; exact hfetch, by decide, ?_, ?_⟩
    · rw [hrun]
      simp only [load_savedLedgerFile]
      rw [hload]
      decide
    · rw [hrun]
      simp only [load_savedLedgerFile]
      rw [hload]
      decide

/-- Witness for C5's watermark clause at the concrete ledger `{1, 2}`:
the fetch starting point is `max(ledger) + 1 = 3`. -/
theorem c5_filter_and_watermark_witness :
    lastKnownId ({1, 2} : Finset ℤ) = ({1, 2} : Finset ℤ).max' ⟨1, by decide⟩ ∧
    ({1, 2} : Finset ℤ).max' ⟨1, by decide⟩ + 1 = 3 :=
  ⟨c5_filter_and_watermark.2.1 ({1, 2} : Finset ℤ) ⟨1, by decide⟩, by decide⟩

/-! ## C8 — per-update extraction failure isolation -/

/-- **C8.** Each failure mode of `_process_single_update` (no message
payload, download error, transcription error) yields
`(update_id, None)`, and a transcription returning no text propagates as
an untruthy result; such results are excluded from `thoughts` and
`successful_ids` and counted as failures, without affecting sibling
updates (each update's result is a function of that update alone, and
the output lists enumerate exactly the truthy results); a batch of 5
updates with exactly one failing extraction returns exactly 4 pairs and
records 1 failure. -/
theorem c8_extraction_isolation :
    (∀ (env : RunEnv) (us : List TgUpdate),
      (extractContent env us).thoughts.length =
        (extractContent env us).successful_ids.length ∧
      (extractContent env us).thoughts.length + (extractContent env us).failed =
        us.length ∧
      (extractContent env us).successful_ids =
        (us.filter (fun u => strTruthy (processSingleUpdate env u).2)).map
          (·.update_id)) ∧
    (∀ (env : RunEnv) (u : TgUpdate),
      (u.message = none → processSingleUpdate env u = (u.update_id, none)) ∧
      (∀ m, u.message = some m → strTruthy m.text = false → m.voice = none →
        processSingleUpdate env u = (u.update_id, none)) ∧
      (∀ m v, u.message = some m → strTruthy m.text = false →
        m.voice = some v → env.download v.file_id = .error () →
        processSingleUpdate env u = (u.update_id, none)) ∧
      (∀ m v audio, u.message = some m → strTruthy m.text = false →
        m.voice = some v → env.download v.file_id = .ok audio →
        env.transcribe audio = .error () →
        processSingleUpdate env u = (u.update_id, none)) ∧
      (∀ m v audio t, u.message = some m → strTruthy m.text = false →
        m.voice = some v → env.download v.file_id = .ok audio →
        env.transcribe audio = .ok t →
        processSingleUpdate env u = (u.update_id, t))) ∧
    (∀ (env : RunEnv) (us : List TgUpdate),
      us.length = 5 →
      us.countP (fun u => strTruthy (processSingleUpdate env u).2) = 4 →
      (extractContent env us).thoughts.length = 4 ∧
      (extractContent env us).successful_ids.length = 4 ∧
      (extractContent env us).failed = 1) := by
  have hcounts : ∀ (env : RunEnv) (us : List TgUpdate),
      (extractContent env us).thoughts.length =
        us.countP (fun u => strTruthy (processSingleUpdate env u).2) ∧
      (extractContent env us).thoughts.length =
        (extractContent env us).successful_ids.length ∧
      (extractContent env us).thoughts.length + (extractContent env us).failed =
        us.length := by
    intro env us
    have h := collectExtracted_counts (us.map (processSingleUpdate env))
    refine ⟨?_, h.1, ?_⟩
    · rw [extractContent, h.2.1, List.countP_map]
      rfl
    · rw [extractContent, h.2.2, List.length_map]
  refine ⟨fun env us => ⟨(hcounts env us).2.1, (hcounts env us).2.2, ?_⟩,
    fun env u => ?_, fun env us h5 h4 => ?_⟩
  · rw [extractContent, collectExtracted_ids, List.filter_map, List.map_map]
    refine List.map_congr_left (fun u hu => ?_)
    simp [processSingleUpdate_fst]
  · refine ⟨fun hm => by simp [processSingleUpdate, hm],
      fun m hm ht hv => by simp [processSingleUpdate, hm, ht, hv],
      fun m v hm ht hv hd => by simp [processSingleUpdate, hm, ht, hv, hd],
      fun m v audio hm ht hv hd htr => by
        simp [processSingleUpdate, hm, ht, hv, hd, htr],
      fun m v audio t hm ht hv hd htr => by
        simp [processSingleUpdate, hm, ht, hv, hd, htr]⟩
  · have h := hcounts env us
    have h1 : (extractContent env us).thoughts.length = 4 := by
      rw [h.1, h4]
    refine ⟨h1, by rw [← h.2.1, h1], by omega⟩

/-- Concrete environment for the C8 witness: no collaborator is ever
reached because the batch is all-text plus one payloadless update. -/
def c8env : RunEnv where
  file := .missing
  getUpdates := fun _ => []
  download := fun _ => .error ()
  transcribe := fun _ => .error ()
  schema := .ok ""
  ragIndex := .ok ()
  ragContext := .ok ""
  llm := .ok []

/-- A batch of five updates of which exactly one (id 14, no message
payload) fails extraction. -/
def c8batch : List TgUpdate :=
  [⟨10, some ⟨some "a", none⟩⟩, ⟨11, some ⟨some "b", none⟩⟩,
    ⟨12, some ⟨some "c", none⟩⟩, ⟨13, some ⟨some "d", none⟩⟩, ⟨14, none⟩]

/-- Witness for C8: the concrete 5-update batch with one payloadless
update yields 4 extracted pairs and 1 recorded failure. -/
theorem c8_extraction_isolation_witness :
    (extractContent c8env c8batch).thoughts.length = 4 ∧
    (extractContent c8env c8batch).successful_ids.length = 4 ∧
    (extractContent c8env c8batch).failed = 1 :=
  c8_extraction_isolation.2.2 c8env c8batch (by decide) (by decide)

/-! ## C1 — empty decision output: logged, but the batch IS persisted

`run` logs "LLM returned no actions. The batch will be retried in the
next run." (line 82) but then unconditionally reaches
`self._persist_successful_updates(processed_ids, successful_ids)`
(line 83), which marks the extraction-successful identifiers — so they
are not retried, contradicting both the log message and the claim. -/

/-- Update 7 of the C1 counterexample: a plain text message. -/
def c1upd : TgUpdate := ⟨7, some ⟨some "note", none⟩⟩

/-- C1 counterexample environment: empty ledger, one fetched text update,
every Decide-stage collaborator succeeding, and the LLM returning no
mutation intents for the non-empty batch. -/
def c1env : RunEnv where
  file := .missing
  getUpdates := fun o => if o = 1 then [c1upd] else []
  download := fun _ => .error ()
  transcribe := fun _ => .error ()
  schema := .ok "s"
  ragIndex := .ok ()
  ragContext := .ok "c"
  llm := .ok []

/-- **C1 counterexample.** With extraction succeeding for update 7 and the
decision stage returning no intents for the non-empty batch, the run
warns — yet writes the ledger and marks 7, so 7 is *not* retried:
the claim's "identifiers remain unmarked" is false on the code. -/
theorem c1_unmarked_cex :
    c1env.llm = .ok [] ∧
    (extractContent c1env [c1upd]).successful_ids = [7] ∧
    (runWorkflow c1env).logs = [.warnNoActions] ∧
    (runWorkflow c1env).writes ≠ [] ∧
    (7 : ℤ) ∈ (get_processed_update_ids (runWorkflow c1env).file).1 := by
  have hfetch : fetchAndFilter c1env (get_processed_update_ids c1env.file).1 =
      ([c1upd], none) := by decide
  have hrun := runWorkflow_happy c1env [c1upd] "s" "c" []
    hfetch (by decide) (by decide) rfl rfl rfl rfl
  refine ⟨rfl, by decide, ?_, ?_, ?_⟩
  · rw [hrun]
    rfl
  · rw [hrun]
    simp
  · rw [hrun]
    simp only [load_savedLedgerFile]
    decide

/-- **C1 (amended).** When extraction succeeds and the decision stage
returns no mutation intents for the non-empty batch, this is treated as
a non-error: a warning is logged (nothing critical), but the
extraction-successful identifiers are nevertheless persisted to the
idempotency ledger, so those updates are not retried on the next pass. -/
theorem c1_no_actions_still_persists :
    ∀ (env : RunEnv) (unp : List TgUpdate) (sc ctx : String),
      fetchAndFilter env (get_processed_update_ids env.file).1 = (unp, none) →
      unp ≠ [] →
      (extractContent env unp).thoughts ≠ [] →
      env.schema = .ok sc → env.ragIndex = .ok () →
      env.ragContext = .ok ctx → env.llm = .ok [] →
      (runWorkflow env).logs = [.warnNoActions] ∧
      LogEvent.critUnhandled ∉ (runWorkflow env).logs ∧
      (runWorkflow env).writes =
        [(get_processed_update_ids env.file).1 ∪
          (extractContent env unp).successful_ids.toFinset] ∧
      (get_processed_update_ids (runWorkflow env).file).1 =
        (get_processed_update_ids env.file).1 ∪
          (extractContent env unp).successful_ids.toFinset ∧
      (runWorkflow env).ret = true := by
  intro env unp sc ctx hfetch hunp hth hs hri hrc hl
  rw [runWorkflow_happy env unp sc ctx [] hfetch hunp hth hs hri hrc hl]
  simp [load_savedLedgerFile]

/-- Witness for C1 (amended) at the concrete environment `c1env`. -/
theorem c1_no_actions_still_persists_witness :
    (runWorkflow c1env).logs = [.warnNoActions] ∧
    LogEvent.critUnhandled ∉ (runWorkflow c1env).logs ∧
    (runWorkflow c1env).writes =
      [(get_processed_update_ids c1env.file).1 ∪
        (extractContent c1env [c1upd]).successful_ids.toFinset] ∧
    (get_processed_update_ids (runWorkflow c1env).file).1 =
      (get_processed_update_ids c1env.file).1 ∪
        (extractContent c1env [c1upd]).successful_ids.toFinset ∧
    (runWorkflow c1env).ret = true :=
  c1_no_actions_still_persists c1env [c1upd] "s" "c" (by decide) (by decide)
    (by decide) rfl rfl rfl rfl

/-! ## C2 — a Decide/Execute throw persists nothing

The `except` block of `run` (lines 84-85) only logs critical; the persist
call sits inside the `try` (line 83) and is skipped by the exception, so
identifiers whose extraction succeeded are *not* persisted — the run
loses that progress (they will be retried), contradicting the claim. -/

/-- Update 7 of the C2 counterexample: a plain text message. -/
def c2upd : TgUpdate := ⟨7, some ⟨some "note", none⟩⟩

/-- C2 counterexample environment: extraction succeeds for update 7, then
the document-store schema fetch raises. -/
def c2env : RunEnv where
  file := .missing
  getUpdates := fun o => if o = 1 then [c2upd] else []
  download := fun _ => .error ()
  transcribe := fun _ => .error ()
  schema := .error ()
  ragIndex := .ok ()
  ragContext := .ok "c"
  llm := .ok []

/-- **C2 counterexample.** Extraction succeeded for update 7, the schema
fetch then raised: the exception is caught and logged critical, but the
run performs no ledger write at all — id 7 is not persisted, refuting
"the run still attempts to persist the identifiers whose extraction had
already succeeded". -/
theorem c2_throw_loses_progress_cex :
    c2env.schema = .error () ∧
    (extractContent c2env [c2upd]).successful_ids = [7] ∧
    (runWorkflow c2env).writes = [] ∧
    (runWorkflow c2env).file = c2env.file ∧
    (runWorkflow c2env).logs = [.critUnhandled] ∧
    (7 : ℤ) ∉ (get_processed_update_ids (runWorkflow c2env).file).1 := by
  refine ⟨rfl, by decide, by decide, by decide, by decide, by decide⟩

/-- **C2 (amended).** If a batch run throws during the Decide stage
(schema fetch, RAG index build, context assembly, or the LLM call), the
exception is caught at the orchestrator boundary and logged as critical,
but the run performs no ledger write: the identifiers whose extraction
succeeded are not persisted (they will be retried on the next pass), and
only ledger state committed before the exception is preserved. -/
theorem c2_throw_caught_no_persist :
    ∀ (env : RunEnv) (unp : List TgUpdate),
      fetchAndFilter env (get_processed_update_ids env.file).1 = (unp, none) →
      unp ≠ [] →
      (extractContent env unp).thoughts ≠ [] →
      (env.schema = .error () ∨
        (∃ sc, env.schema = .ok sc ∧ env.ragIndex = .error ()) ∨
        (∃ sc, env.schema = .ok sc ∧ env.ragIndex = .ok () ∧
          env.ragContext = .error ()) ∨
        (∃ sc ctx, env.schema = .ok sc ∧ env.ragIndex = .ok () ∧
          env.ragContext = .ok ctx ∧ env.llm = .error ())) →
      runWorkflow env = ⟨env.file, [], true, [.critUnhandled]⟩ := by
  intro env unp hfetch hunp hth hstage
  simp only [runWorkflow, hfetch]
  rw [if_neg (by simpa [List.isEmpty_iff] using hunp),
    if_neg (by simpa [List.isEmpty_iff] using hth)]
  rcases hstage with hs | ⟨sc, hs, hri⟩ | ⟨sc, hs, hri, hrc⟩ |
      ⟨sc, ctx, hs, hri, hrc, hl⟩ <;>
    simp [hs]
  · simp [hri]
  · simp [hri, hrc]
  · simp [hri, hrc, hl]

/-- Witness for C2 (amended) at the concrete environment `c2env`. -/
theorem c2_throw_caught_no_persist_witness :
    runWorkflow c2env = ⟨c2env.file, [], true, [.critUnhandled]⟩ :=
  c2_throw_caught_no_persist c2env [c2upd] (by decide) (by decide) (by decide)
    (Or.inl rfl)

/-! ## C7 — action executor: validity, ordering, counting

The loop over `ordered_actions` warns only for actions of one of the
three known types whose required fields are missing; an intent whose
`action` value is none of the three never enters `ordered_actions` at
all (lines 273-278) and is therefore dropped *silently*, against the
claim's "all other intents are dropped with a warning". -/

/-- The executor loop splits into the submitted calls and the warned
actions. -/
lemma buildTasks_eq (l : List NotionActionDict) :
    buildTasks l =
      (l.filterMap taskOf, l.filter (fun a => (taskOf a).isNone)) := by
  induction l with
  | nil => rfl
  | cons a l ih => cases h : taskOf a <;> simp [buildTasks, h, ih]

/-- An intent with an unrecognized action type: dropped, but silently. -/
def c7noop : NotionActionDict := ⟨some "noop", some "p", some [("k", "v")]⟩

/-- An update intent missing its target page id: dropped with a warning. -/
def c7badUpdate : NotionActionDict := ⟨some "update", none, some [("k", "v")]⟩

/-- **C7 counterexample.** The unknown-type intent `c7noop` is not
submitted, yet also never reaches the warning branch — `warned` is empty
— refuting "all other intents are dropped with a warning"; the
known-type invalid intent `c7badUpdate` by contrast is warned. -/
theorem c7_silent_drop_cex :
    (execute_notion_actions [c7noop] (fun _ => false)).submitted = [] ∧
    (execute_notion_actions [c7noop] (fun _ => false)).warned = [] ∧
    (execute_notion_actions [c7badUpdate] (fun _ => false)).warned =
      [c7badUpdate] := by
  decide

/-- **C7 (amended).** The executor submits exactly the valid intents —
create needs a data payload, update needs a page id and a data payload,
archive needs a page id — in submission order
create-then-update-then-archive; intents of the three known types that
fail validation are dropped with a warning, intents of any other type
are dropped silently during partitioning, and none of the dropped are
submitted; the reported executed count equals the submitted count minus
the per-intent failures, which never abort the batch (the submitted set
is independent of which tasks fail). -/
theorem c7_executor_behaviour :
    (∀ (actions : List NotionActionDict) (f : ℕ → Bool),
      (execute_notion_actions actions f).submitted =
        (orderedActions actions).filterMap taskOf ∧
      (execute_notion_actions actions f).warned =
        (orderedActions actions).filter (fun a => (taskOf a).isNone)) ∧
    (∀ a : NotionActionDict, (taskOf a).isSome = claimValidIntent a) ∧
    (∀ (actions : List NotionActionDict) (f : ℕ → Bool),
      (execute_notion_actions actions f).submitted =
        (createActions actions).filterMap taskOf ++
          (updateActions actions).filterMap taskOf ++
          (archiveActions actions).filterMap taskOf) ∧
    (∀ (actions : List NotionActionDict) (f : ℕ → Bool)
        (a : NotionActionDict),
      a ∈ (execute_notion_actions actions f).warned →
      (a.action = some "create" ∨ a.action = some "update" ∨
        a.action = some "archive") ∧ claimValidIntent a = false) ∧
    (∀ (actions : List NotionActionDict) (f : ℕ → Bool),
      (execute_notion_actions actions f).reported +
          ((List.range
            (execute_notion_actions actions f).submitted.length).filter
              f).length =
        (execute_notion_actions actions f).submitted.length) ∧
    (∀ (actions : List NotionActionDict) (f g : ℕ → Bool),
      (execute_notion_actions actions f).submitted =
        (execute_notion_actions actions g).submitted ∧
      (execute_notion_actions actions f).warned =
        (execute_notion_actions actions g).warned) := by
  have hsome : ∀ a : NotionActionDict, (taskOf a).isSome = claimValidIntent a := by
    intro a
    rcases a with ⟨act, pid, dat⟩
    by_cases hc : act = some "create"
    · rcases dat with _ | d
      · simp [taskOf, claimValidIntent, hc, dataTruthy]
      · by_cases hd : d.isEmpty <;>
          simp [taskOf, claimValidIntent, hc, dataTruthy, hd]
    · by_cases hu : act = some "update"
      · rcases pid with _ | p <;> rcases dat with _ | d
        · simp [taskOf, claimValidIntent, hc, hu, strTruthy, dataTruthy]
        · simp [taskOf, claimValidIntent, hc, hu, strTruthy, dataTruthy]
        · simp [taskOf, claimValidIntent, hc, hu, strTruthy, dataTruthy]
        · by_cases hp : p.isEmpty <;> by_cases hd : d.isEmpty <;>
            simp [taskOf, claimValidIntent, hc, hu, strTruthy, dataTruthy,
              hp, hd]
      · by_cases ha : act = some "archive"
        · rcases pid with _ | p
          · simp [taskOf, claimValidIntent, hc, hu, ha, strTruthy]
          · by_cases hp : p.isEmpty <;>
              simp [taskOf, claimValidIntent, hc, hu, ha, strTruthy, hp]
        · simp [taskOf, claimValidIntent, hc, hu, ha]
  have hparts : ∀ (actions : List NotionActionDict) (f : ℕ → Bool),
      (execute_notion_actions actions f).submitted =
        (orderedActions actions).filterMap taskOf ∧
      (execute_notion_actions actions f).warned =
        (orderedActions actions).filter (fun a => (taskOf a).isNone) := by
    intro actions f
    simp [execute_notion_actions, buildTasks_eq]
  refine ⟨hparts, hsome, ?_, ?_, ?_, ?_⟩
  · intro actions f
    rw [(hparts actions f).1, orderedActions, List.filterMap_append,
      List.filterMap_append]
  · intro actions f a ha
    rw [(hparts actions f).2] at ha
    have hmem := (List.mem_filter.mp ha).1
    have hnone := (List.mem_filter.mp ha).2
    have hinvalid : claimValidIntent a = false := by
      rw [← hsome a]
      simpa [Option.isNone_iff_eq_none, Option.isSome_iff_exists] using hnone
    refine ⟨?_, hinvalid⟩
    rw [orderedActions] at hmem
    rcases List.mem_append.mp hmem with hm | hm
    · rcases List.mem_append.mp hm with hm' | hm'
      · exact Or.inl (by simpa using (List.mem_filter.mp hm').2)
      · exact Or.inr (Or.inl (by simpa using (List.mem_filter.mp hm').2))
    · exact Or.inr (Or.inr (by simpa using (List.mem_filter.mp hm).2))
  · intro actions f
    simp only [execute_notion_actions]
    set n := (buildTasks (orderedActions actions)).1.length with hn
    have hk : ((List.range n).filter f).length ≤ n := by
      calc ((List.range n).filter f).length ≤ (List.range n).length :=
            List.length_filter_le _ _
        _ = n := List.length_range n
    by_cases h0 : ((List.range n).filter f).length = 0
    · simp [h0]
    · simp only [h0, if_false]
      omega
  · intro actions f g
    exact ⟨rfl, rfl⟩

/-- Witness for C7 (amended): the warned intent `c7badUpdate` is of a
known type and fails the claim's validity predicate. -/
theorem c7_executor_behaviour_witness :
    (c7badUpdate.action = some "create" ∨ c7badUpdate.action = some "update" ∨
      c7badUpdate.action = some "archive") ∧
    claimValidIntent c7badUpdate = false :=
  c7_executor_behaviour.2.2.2.1 [c7badUpdate] (fun _ => false) c7badUpdate
    (by decide)

/-! ## C6 — webhook dedup cache helper lemmas -/

/-- A known id returns `False` and leaves the cache untouched. -/
lemma mark_known (cap : ℕ) (c : DedupCache) (id : ℤ) (h : id ∈ c.cset) :
    mark_update_if_new cap c id = some (c, false) := by
  simp [mark_update_if_new, h]

/-- Marking a fresh id on a cache at (or beyond) capacity pops exactly the
oldest entry and appends the id; the result is well-formed again. -/
lemma mark_fresh_full (cap : ℕ) (c : DedupCache) (id oldest : ℤ)
    (rest : List ℤ) (hwf : CacheWF cap c) (hmem : id ∉ c.cset)
    (hfull : cap ≤ c.deque.length) (hd : c.deque = oldest :: rest) :
    mark_update_if_new cap c id =
      some (⟨rest ++ [id], insert id (c.cset.erase oldest)⟩, true) ∧
    CacheWF cap ⟨rest ++ [id], insert id (c.cset.erase oldest)⟩ := by
  obtain ⟨hset, hnodup, hle⟩ := hwf
  have hidmem : id ∉ c.deque := by
    rw [hset] at hmem
    simpa [List.mem_toFinset] using hmem
  have holdest : oldest ∉ rest := by
    rw [hd] at hnodup
    exact (List.nodup_cons.mp hnodup).1
  have hrestnodup : rest.Nodup := by
    rw [hd] at hnodup
    exact (List.nodup_cons.mp hnodup).2
  have hidrest : id ∉ rest := fun hr => hidmem (by rw [hd]; exact .tail _ hr)
  have hfull' : cap ≤ rest.length + 1 := by
    have hdl : c.deque.length = rest.length + 1 := by
      rw [hd]
      rfl
    omega
  refine ⟨by simp [mark_update_if_new, hmem, hd, hfull'], ?_, ?_, ?_⟩
  · rw [hset, hd]
    simp only [List.toFinset_cons]
    rw [Finset.erase_insert (by simpa [List.mem_toFinset] using holdest)]
    simp [Finset.insert_eq, Finset.union_comm]
  · simp [List.nodup_append, hrestnodup, hidrest]
  · have hdl : c.deque.length = rest.length + 1 := by
      rw [hd]
      rfl
    simp only [List.length_append, List.length_singleton, List.length_nil]
    omega

/-- Marking a fresh id on a cache under capacity appends it; the result is
well-formed provided the cache was strictly below capacity. -/
lemma mark_fresh_spare (cap : ℕ) (c : DedupCache) (id : ℤ)
    (hwf : CacheWF cap c) (hmem : id ∉ c.cset)
    (hspare : ¬cap ≤ c.deque.length) :
    mark_update_if_new cap c id =
      some (⟨c.deque ++ [id], insert id c.cset⟩, true) ∧
    CacheWF cap ⟨c.deque ++ [id], insert id c.cset⟩ := by
  obtain ⟨hset, hnodup, hle⟩ := hwf
  have hidmem : id ∉ c.deque := by
    rw [hset] at hmem
    simpa [List.mem_toFinset] using hmem
  refine ⟨by simp [mark_update_if_new, hmem, hspare], ?_, ?_, ?_⟩
  · rw [hset]
    simp [Finset.insert_eq, Finset.union_comm]
  · simp [List.nodup_append, hnodup, hidmem]
  · simp only [List.length_append, List.length_singleton]
    omega

/-- Inserting a run of ids that are all fresh (no duplicates among the
existing deque and the inserted ids) keeps the last `cap` of them:
the final deque is the concatenation with its overflow dropped from the
front. -/
lemma markAll_fresh (cap : ℕ) (hcap : 1 ≤ cap) :
    ∀ (l : List ℤ) (c : DedupCache), CacheWF cap c →
    (c.deque ++ l).Nodup →
    ∃ c', markAll cap c l = some c' ∧ CacheWF cap c' ∧
      c'.deque = (c.deque ++ l).drop (c.deque.length + l.length - cap) := by
  intro l
  induction l with
  | nil =>
    intro c hwf _
    refine ⟨c, rfl, hwf, ?_⟩
    rw [Nat.sub_eq_zero_of_le (by simpa using hwf.2.2)]
    simp
  | cons x xs ih =>
    intro c hwf hnd
    have hxfresh : x ∉ c.deque := by
      have := (List.nodup_append.mp hnd).2.2
      intro hx
      exact this hx (.head _)
    have hxmem : x ∉ c.cset := by
      rw [hwf.1]
      simpa [List.mem_toFinset] using hxfresh
    by_cases hfull : cap ≤ c.deque.length
    · have hlen : c.deque.length = cap := le_antisymm hwf.2.2 hfull
      obtain ⟨oldest, rest, hd⟩ : ∃ o r, c.deque = o :: r := by
        cases hdq : c.deque with
        | nil => rw [hdq] at hlen; simp at hlen; omega
        | cons o r => exact ⟨o, r, rfl⟩
      obtain ⟨hstep, hwf1⟩ := mark_fresh_full cap c x oldest rest hwf hxmem hfull hd
      obtain ⟨c', hall, hwf', hdeq⟩ := ih ⟨rest ++ [x], insert x (c.cset.erase oldest)⟩ hwf1 (by
        have : (c.deque ++ x :: xs).Nodup := hnd
        rw [hd] at this
        simpa [List.append_assoc] using (List.nodup_cons.mp this).2)
      refine ⟨c', by rw [markAll, hstep]; exact hall, hwf', ?_⟩
      rw [hdeq, hd]
      have hr : rest.length + 1 = cap := by
        have : c.deque.length = rest.length + 1 := by rw [hd]; rfl
        omega
      have h1 : (rest ++ [x]).length + xs.length - cap = xs.length := by
        simp only [List.length_append, List.length_singleton]
        omega
      have h2 : (oldest :: rest).length + (x :: xs).length - cap =
          xs.length + 1 := by
        simp only [List.length_cons]
        omega
      rw [h1, h2]
      simp [List.append_assoc]
    · obtain ⟨hstep, hwf1⟩ := mark_fresh_spare cap c x hwf hxmem hfull
      obtain ⟨c', hall, hwf', hdeq⟩ := ih ⟨c.deque ++ [x], insert x c.cset⟩ hwf1 (by
        simpa [List.append_assoc] using hnd)
      refine ⟨c', by rw [markAll, hstep]; exact hall, hwf', ?_⟩
      rw [hdeq]
      have h1 : (c.deque ++ [x]).length + xs.length - cap =
          c.deque.length + (x :: xs).length - cap := by
        simp only [List.length_append, List.length_singleton, List.length_cons,
          List.length_nil]
        omega
      rw [h1]
      simp [List.append_assoc]

/-- The empty cache is well-formed at every capacity. -/
lemma emptyDedupCache_wf (cap : ℕ) : CacheWF cap emptyDedupCache :=
  ⟨rfl, List.nodup_nil, by simp [emptyDedupCache]⟩

/-! ## C6 — dedup cache: atomicity-section contract, capacity, FIFO -/

/-- **C6.** `_mark_update_if_new` (one atomic transition under the cache
lock) returns `False` for a known id leaving the cache unchanged;
otherwise inserts the id, evicting exactly the single oldest entry when
the deque is at capacity, and returns `True`; well-formedness — in
particular the size bound `≤ N` — is preserved; and after inserting
`N + 1` distinct ids into an empty cache of capacity `N ≥ 1`, the oldest
is treated as new again while the `N` most recent are still recognized
as duplicates. -/
theorem c6_dedup_cache :
    (∀ (cap : ℕ) (c : DedupCache) (id : ℤ), id ∈ c.cset →
      mark_update_if_new cap c id = some (c, false)) ∧
    (∀ (cap : ℕ) (c : DedupCache) (id : ℤ), 1 ≤ cap → CacheWF cap c →
      ∃ c' b, mark_update_if_new cap c id = some (c', b) ∧
        CacheWF cap c' ∧ c'.deque.length ≤ cap) ∧
    (∀ (cap : ℕ) (c : DedupCache) (id : ℤ), 1 ≤ cap → CacheWF cap c →
      id ∉ c.cset → cap ≤ c.deque.length →
      ∃ oldest rest, c.deque = oldest :: rest ∧
        mark_update_if_new cap c id =
          some (⟨rest ++ [id], insert id (c.cset.erase oldest)⟩, true)) ∧
    (∀ (cap : ℕ) (l : List ℤ), 1 ≤ cap → l.Nodup → l.length = cap + 1 →
      ∃ c', markAll cap emptyDedupCache l = some c' ∧
        c'.deque = l.tail ∧
        (∀ x ∈ l.tail, mark_update_if_new cap c' x = some (c', false)) ∧
        (∀ h0, l.head? = some h0 →
          ∃ c'', mark_update_if_new cap c' h0 = some (c'', true))) := by
  refine ⟨mark_known, ?_, ?_, ?_⟩
  · intro cap c id hcap hwf
    by_cases hmem : id ∈ c.cset
    · exact ⟨c, false, mark_known cap c id hmem, hwf, hwf.2.2⟩
    · by_cases hfull : cap ≤ c.deque.length
      · obtain ⟨oldest, rest, hd⟩ : ∃ o r, c.deque = o :: r := by
          cases hdq : c.deque with
          | nil =>
            rw [hdq] at hfull
            simp at hfull
            omega
          | cons o r => exact ⟨o, r, rfl⟩
        obtain ⟨hstep, hwf1⟩ := mark_fresh_full cap c id oldest rest hwf hmem hfull hd
        exact ⟨_, true, hstep, hwf1, hwf1.2.2⟩
      · obtain ⟨hstep, hwf1⟩ := mark_fresh_spare cap c id hwf hmem hfull
        exact ⟨_, true, hstep, hwf1, hwf1.2.2⟩
  · intro cap c id hcap hwf hmem hfull
    obtain ⟨oldest, rest, hd⟩ : ∃ o r, c.deque = o :: r := by
      cases hdq : c.deque with
      | nil =>
        rw [hdq] at hfull
        simp at hfull
        omega
      | cons o r => exact ⟨o, r, rfl⟩
    exact ⟨oldest, rest, hd,
      (mark_fresh_full cap c id oldest rest hwf hmem hfull hd).1⟩
  · intro cap l hcap hnodup hlen
    obtain ⟨c', hall, hwf', hdeq⟩ := markAll_fresh cap hcap l emptyDedupCache
      (emptyDedupCache_wf cap) (by simpa [emptyDedupCache] using hnodup)
    have hdrop : c'.deque = l.tail := by
      rw [hdeq]
      simp only [emptyDedupCache, List.nil_append, List.length_nil]
      have h1 : 0 + l.length - cap = 1 := by omega
      rw [h1, List.drop_one]
    have hcset : c'.cset = l.tail.toFinset := by
      rw [hwf'.1, hdrop]
    refine ⟨c', hall, hdrop, fun x hx => ?_, fun h0 hh0 => ?_⟩
    · exact mark_known cap c' x (by rw [hcset]; exact List.mem_toFinset.mpr hx)
    · obtain ⟨t, hl⟩ : ∃ t, l = h0 :: t := by
        cases hlc : l with
        | nil => rw [hlc] at hh0; simp at hh0
        | cons a t =>
          rw [hlc] at hh0
          simp at hh0
          exact ⟨t, by rw [hh0]⟩
      have htail : l.tail = t := by
        rw [hl]
        rfl
      have hh0tail : h0 ∉ t := by
        rw [hl] at hnodup
        exact (List.nodup_cons.mp hnodup).1
      have hh0mem : h0 ∉ c'.cset := by
        rw [hcset, htail]
        simpa [List.mem_toFinset] using hh0tail
      have htlen : t.length = cap := by
        rw [hl] at hlen
        simpa using hlen
      have hfull : cap ≤ c'.deque.length := by
        rw [hdrop, htail, htlen]
      obtain ⟨o, r, hor⟩ : ∃ o r, c'.deque = o :: r := by
        cases hdq : c'.deque with
        | nil =>
          rw [hdq] at hfull
          simp at hfull
          omega
        | cons o r => exact ⟨o, r, rfl⟩
      exact ⟨_, (mark_fresh_full cap c' h0 o r hwf' hh0mem hfull hor).1⟩

/-- Witness for C6: capacity 2, inserting the 3 distinct ids `5, 6, 7`;
the final cache rejects `6` and `7` but treats `5` as new again. -/
theorem c6_dedup_cache_witness :
    ∃ c', markAll 2 emptyDedupCache [5, 6, 7] = some c' ∧
      c'.deque = ([5, 6, 7] : List ℤ).tail ∧
      (∀ x ∈ ([5, 6, 7] : List ℤ).tail,
        mark_update_if_new 2 c' x = some (c', false)) ∧
      (∀ h0, ([5, 6, 7] : List ℤ).head? = some h0 →
        ∃ c'', mark_update_if_new 2 c' h0 = some (c'', true)) :=
  c6_dedup_cache.2.2.2 2 [5, 6, 7] (by decide) (by decide) (by decide)

/-! ## C4 — admission gate helper lemmas -/

/-- Pruning only discards timestamps. -/
lemma pruneTimestamps_length_le (W now : ℤ) (ts : List ℤ) :
    (pruneTimestamps W now ts).length ≤ ts.length :=
  length_dropWhile_le _ _

/-- One gate check keeps the deque within the configured maximum. -/
lemma gateCheck_length_le {R W cd now : ℤ} {ts out : List ℤ} {w : Option ℤ}
    (hlen : (ts.length : ℤ) ≤ R)
    (h : gateCheck R W cd now ts = some (out, w)) :
    (out.length : ℤ) ≤ R := by
  have hp : ((pruneTimestamps W now ts).length : ℤ) ≤ R := by
    have := pruneTimestamps_length_le W now ts
    omega
  simp only [gateCheck] at h
  by_cases hlt : ((pruneTimestamps W now ts).length : ℤ) < R
  · rw [if_pos hlt] at h
    obtain ⟨hout, _⟩ := Prod.mk.injEq .. ▸ Option.some.inj h
    rw [← hout]
    simp only [List.length_append, List.length_singleton, List.length_nil]
    push_cast
    omega
  · rw [if_neg hlt] at h
    cases hpr : pruneTimestamps W now ts with
    | nil =>
      rw [hpr] at h
      exact absurd h (by simp)
    | cons o r =>
      rw [hpr] at h
      obtain ⟨hout, _⟩ := Prod.mk.injEq .. ▸ Option.some.inj h
      rw [← hout, ← hpr]
      exact hp

/-- The whole check-sleep loop keeps the deque within the maximum. -/
lemma gateLoop_length_le {R W cd : ℤ} :
    ∀ {nows ts out : List ℤ}, (ts.length : ℤ) ≤ R →
    gateLoop R W cd nows ts = some out → (out.length : ℤ) ≤ R := by
  intro nows
  induction nows with
  | nil =>
    intro ts out _ h
    exact absurd h (by simp [gateLoop])
  | cons now rest ih =>
    intro ts out hlen h
    simp only [gateLoop] at h
    cases hc : gateCheck R W cd now ts with
    | none => rw [hc] at h; exact absurd h (by simp)
    | some p =>
      rw [hc] at h
      obtain ⟨ts', w⟩ := p
      cases w with
      | none =>
        simp at h
        rw [← h]
        exact gateCheck_length_le hlen hc
      | some wait =>
        simp at h
        exact ih (gateCheck_length_le hlen hc) h

/-! ## C4 — admission gate: window bound, wait formula, loop, disable -/

/-- **C4.** For a configured maximum `R ≥ 1`, every gate check preserves
the bound: at most `R` recorded timestamps (hence at most `R` inside any
window) — and so does the whole retry loop; a blocked caller's computed
sleep is exactly `max(oldest + W - now, cooldown)` (cooldown being
non-negative by configuration); a blocked check is followed by a renewed
full check after the sleep, not a one-shot sleep; with `R ≤ 0` the
volume gate returns immediately without recording a timestamp, while the
voice pathway still acquires the concurrency semaphore around the gated
call for every `R`. -/
theorem c4_admission_gate :
    (∀ (R W cd now : ℤ) (ts out : List ℤ) (w : Option ℤ),
      (ts.length : ℤ) ≤ R →
      gateCheck R W cd now ts = some (out, w) →
      (out.length : ℤ) ≤ R ∧
      ((out.filter (fun t => now - W ≤ t)).length : ℤ) ≤ R) ∧
    (∀ (R W cd now : ℤ) (ts out : List ℤ) (wait : ℤ),
      0 ≤ cd →
      gateCheck R W cd now ts = some (out, some wait) →
      ∃ oldest rest, pruneTimestamps W now ts = oldest :: rest ∧
        out = oldest :: rest ∧
        wait = max (oldest + W - now) cd) ∧
    (∀ (R W cd now : ℤ) (rest ts ts' : List ℤ) (w : ℤ),
      gateCheck R W cd now ts = some (ts', some w) →
      gateLoop R W cd (now :: rest) ts = gateLoop R W cd rest ts') ∧
    (∀ (R W cd : ℤ) (nows ts out : List ℤ),
      (ts.length : ℤ) ≤ R →
      gateLoop R W cd nows ts = some out → (out.length : ℤ) ≤ R) ∧
    (∀ (R W cd : ℤ) (nows ts : List ℤ),
      R ≤ 0 → acquireGladiaSlot R W cd nows ts = some ts) ∧
    (∀ R : ℤ, GateEvent.semAcquire ∈ voicePathTrace R) := by
  refine ⟨?_, ?_, ?_, fun R W cd nows ts out hlen h => gateLoop_length_le hlen h,
    ?_, ?_⟩
  · intro R W cd now ts out w hlen h
    have h1 := gateCheck_length_le hlen h
    refine ⟨h1, ?_⟩
    have h2 := List.length_filter_le (fun t => decide (now - W ≤ t)) out
    omega
  · intro R W cd now ts out wait hcd h
    simp only [gateCheck] at h
    by_cases hlt : ((pruneTimestamps W now ts).length : ℤ) < R
    · rw [if_pos hlt] at h
      exact absurd h (by simp)
    · rw [if_neg hlt] at h
      cases hpr : pruneTimestamps W now ts with
      | nil =>
        rw [hpr] at h
        exact absurd h (by simp)
      | cons o r =>
        rw [hpr] at h
        obtain ⟨hout, hw⟩ := Prod.mk.injEq .. ▸ Option.some.inj h
        refine ⟨o, r, rfl, hout.symm, ?_⟩
        have hwait : wait = max (max (o + W - now) cd) 0 :=
          (Option.some.inj hw).symm
        rw [hwait, max_eq_left (le_trans hcd (le_max_right _ _))]
  · intro R W cd now rest ts ts' w h
    simp only [gateLoop, h]
  · intro R W cd nows ts hR
    simp [acquireGladiaSlot, hR]
  · intro R
    simp [voicePathTrace]

/-- Witness for C4 at concrete values `R = 2`, `W = 10`, `cooldown = 1`:
the blocked check at `now = 5` over deque `[0, 4]` keeps the deque at two
entries and computes wait `max(0 + 10 - 5, 1) = 5`; a disabled gate
(`R = 0`) grants immediately without recording. -/
theorem c4_admission_gate_witness :
    ((([0, 4] : List ℤ).length : ℤ) ≤ 2 ∧
      ((([0, 4] : List ℤ).filter (fun t => (5 : ℤ) - 10 ≤ t)).length : ℤ) ≤ 2) ∧
    (∃ oldest rest, pruneTimestamps 10 5 [0, 4] = oldest :: rest ∧
      ([0, 4] : List ℤ) = oldest :: rest ∧
      (5 : ℤ) = max (oldest + 10 - 5) 1) ∧
    acquireGladiaSlot 0 10 1 [5] [3] = some [3] :=
  ⟨c4_admission_gate.1 2 10 1 5 [0, 4] [0, 4] (some 5) (by decide) (by decide),
    c4_admission_gate.2.1 2 10 1 5 [0, 4] [0, 4] 5 (by decide) (by decide),
    c4_admission_gate.2.2.2.2.1 0 10 1 [5] [3] (by decide)⟩

end TgToNotion
